import Mathlib

/-!
Shallow embedding of the smithy-go middleware slice:
`middleware/middleware.go` (generic handler/middleware composition) and
`middleware/step_build.go` (the typed Build stage).

Go's `context.Context` is an opaque type parameter `Ctx`, `interface{}`
values are a type parameter `ι` (the Build stage instantiates it with
`Option ρ`, where `none` stands for Go's nil interface value), and Go's
`error` results are `Option ε` (`none` = nil error).  Handlers and
middleware are structures of functions, mirroring the Go interfaces.
-/

namespace SmithyGo

/-- Handler provides the interface for performing the logic to obtain an
output, or error, for the given input (middleware.go `Handler`). -/
structure Handler (Ctx ι ε : Type) where
  Handle : Ctx → ι → ι × Option ε

/-- Middleware provides the interface to call handlers in a chain
(middleware.go `Middleware`). -/
structure Middleware (Ctx ι ε : Type) where
  ID : String
  HandleMiddleware : Ctx → ι → Handler Ctx ι ε → ι × Option ε

/-- decoratedHandler wraps a middleware in order to call the next handler
in the chain; its `Handle` runs `With.HandleMiddleware ctx input Next`
(middleware.go `decoratedHandler`). -/
def decoratedHandler {Ctx ι ε : Type} (With : Middleware Ctx ι ε)
    (Next : Handler Ctx ι ε) : Handler Ctx ι ε :=
  ⟨fun ctx input => With.HandleMiddleware ctx input Next⟩

/-- DecorateHandler decorates a handler with middleware: the Go loop runs
`i` from `len(with)-1` down to `0`, each step replacing `h` with
`decoratedHandler{Next: h, With: with[i]}`; that right-to-left iteration is
exactly a right fold (middleware.go `DecorateHandler`). -/
def DecorateHandler {Ctx ι ε : Type} (h : Handler Ctx ι ε)
    (mws : List (Middleware Ctx ι ε)) : Handler Ctx ι ε :=
  mws.foldr decoratedHandler h

/-- Middlewares.HandleMiddleware invokes the collection, decorating the
handler (middleware.go `Middlewares.HandleMiddleware`). -/
def Middlewares.HandleMiddleware {Ctx ι ε : Type}
    (ms : List (Middleware Ctx ι ε)) (ctx : Ctx) (input : ι)
    (next : Handler Ctx ι ε) : ι × Option ε :=
  (DecorateHandler next ms).Handle ctx input

/-- A middleware that purely delegates: it invokes `next` on its input
unchanged and returns the result. -/
def Delegates {Ctx ι ε : Type} (m : Middleware Ctx ι ε) : Prop :=
  ∀ (ctx : Ctx) (x : ι) (n : Handler Ctx ι ε),
    m.HandleMiddleware ctx x n = n.Handle ctx x

/-- Modelled from the spec: the `RelativePosition` enumeration (`Before` /
`After`) used by the ordered-identifier registry; the registry's source file
is not part of this slice, only its contract in §3/§4.1. -/
inductive RelativePosition : Type
  | Before
  | After
deriving DecidableEq, Repr

/-- Modelled from the spec: the error kinds of registry mutations (§7):
`DuplicateID`, `AnchorNotFound` (Insert's anchor absent) and `NotFound`
(Swap/Remove target absent). -/
inductive RegistryError : Type
  | DuplicateID (id : String)
  | AnchorNotFound (id : String)
  | NotFound (id : String)
deriving DecidableEq, Repr

/-- Modelled from the spec: the ordered-identifier registry (`orderedIDs`,
§4.1), an ordered sequence of entries, each entry carrying a unique
identifier (computed by an `idOf` function, playing Go's `ider`
interface). -/
structure orderedIDs (τ : Type) where
  order : List τ

/-- Whether some entry of `l` has identifier `id`. -/
def hasID {τ : Type} (idOf : τ → String) (l : List τ) (id : String) : Bool :=
  l.any fun e => idOf e == id

/-- Insert `m` immediately before (`Before`) or immediately after (`After`)
the first entry whose identifier is `anchor`; `none` when no entry has
identifier `anchor`. -/
def insertRel {τ : Type} (idOf : τ → String) (m : τ) (anchor : String)
    (pos : RelativePosition) : List τ → Option (List τ)
  | [] => none
  | e :: rest =>
    if idOf e = anchor then
      match pos with
      | .Before => some (m :: e :: rest)
      | .After => some (e :: m :: rest)
    else (insertRel idOf m anchor pos rest).map (e :: ·)

/-- Replace the first entry whose identifier is `id` by `m`, returning the
removed entry and the new sequence; `none` when `id` is absent. -/
def swapRel {τ : Type} (idOf : τ → String) (id : String) (m : τ) :
    List τ → Option (τ × List τ)
  | [] => none
  | e :: rest =>
    if idOf e = id then some (e, m :: rest)
    else (swapRel idOf id m rest).map fun p => (p.1, e :: p.2)

/-- Delete the first entry whose identifier is `id`; `none` when `id` is
absent. -/
def removeRel {τ : Type} (idOf : τ → String) (id : String) :
    List τ → Option (List τ)
  | [] => none
  | e :: rest =>
    if idOf e = id then some rest
    else (removeRel idOf id rest).map (e :: ·)

/-- Modelled from the spec: `Add` (§4.1) places the entry at the front
(`Before`) or back (`After`) of the sequence and fails with `DuplicateID`
if the identifier already exists, leaving the registry unchanged. -/
def orderedIDs.Add {τ : Type} (o : orderedIDs τ) (idOf : τ → String) (m : τ)
    (pos : RelativePosition) : orderedIDs τ × Option RegistryError :=
  if hasID idOf o.order (idOf m) then (o, some (.DuplicateID (idOf m)))
  else
    match pos with
    | .Before => (⟨m :: o.order⟩, none)
    | .After => (⟨o.order ++ [m]⟩, none)

/-- Modelled from the spec: `Insert` (§4.1) places the entry immediately
before or after the anchor entry; fails with `DuplicateID` if the entry's
identifier already exists and with `AnchorNotFound` if no entry has the
anchor identifier, in both cases leaving the registry unchanged. -/
def orderedIDs.Insert {τ : Type} (o : orderedIDs τ) (idOf : τ → String)
    (m : τ) (anchor : String) (pos : RelativePosition) :
    orderedIDs τ × Option RegistryError :=
  if hasID idOf o.order (idOf m) then (o, some (.DuplicateID (idOf m)))
  else
    match insertRel idOf m anchor pos o.order with
    | some l => (⟨l⟩, none)
    | none => (o, some (.AnchorNotFound anchor))

/-- Modelled from the spec: `Swap` (§4.1) replaces the entry with the given
identifier in place, returning the removed entry; fails with `DuplicateID`
when the new entry's identifier differs from `id` yet already exists, and
with `NotFound` when `id` is absent, leaving the registry unchanged. -/
def orderedIDs.Swap {τ : Type} (o : orderedIDs τ) (idOf : τ → String)
    (id : String) (m : τ) : orderedIDs τ × Except RegistryError τ :=
  if hasID idOf o.order (idOf m) && idOf m != id then
    (o, .error (.DuplicateID (idOf m)))
  else
    match swapRel idOf id m o.order with
    | some p => (⟨p.2⟩, .ok p.1)
    | none => (o, .error (.NotFound id))

/-- Modelled from the spec: `Remove` (§4.1) deletes the entry with the given
identifier preserving the order of the rest; fails with `NotFound` when `id`
is absent, leaving the registry unchanged. -/
def orderedIDs.Remove {τ : Type} (o : orderedIDs τ) (idOf : τ → String)
    (id : String) : orderedIDs τ × Option RegistryError :=
  match removeRel idOf id o.order with
  | some l => (⟨l⟩, none)
  | none => (o, some (.NotFound id))

/-- Modelled from the spec: `Clear` (§4.1) removes all entries and never
fails. -/
def orderedIDs.Clear {τ : Type} (_ : orderedIDs τ) : orderedIDs τ :=
  ⟨[]⟩

/-- Modelled from the spec: `GetOrder` (§4.1) returns the current sequence
as an ordered snapshot. -/
def orderedIDs.GetOrder {τ : Type} (o : orderedIDs τ) : List τ :=
  o.order

/-! The Build stage (`step_build.go`).  The generic `interface{}` payload of
this stage is `Option ρ`: `none` is Go's nil interface value, which the
stage returns alongside an error (`return nil, err`) and which is the
`Result` of a zero `BuildOutput`. -/

/-- BuildInput provides the input parameters for the BuildMiddleware to
consume (step_build.go `BuildInput`). -/
structure BuildInput (ρ : Type) where
  Request : Option ρ

/-- BuildOutput provides the result returned by the next BuildHandler
(step_build.go `BuildOutput`). -/
structure BuildOutput (ρ : Type) where
  Result : Option ρ

/-- BuildHandler is the interface for the next handler a BuildMiddleware
calls (step_build.go `BuildHandler`). -/
structure BuildHandler (Ctx ρ ε : Type) where
  HandleBuild : Ctx → BuildInput ρ → BuildOutput ρ × Option ε

/-- BuildMiddleware is the interface for middleware specific to the build
step (step_build.go `BuildMiddleware`). -/
structure BuildMiddleware (Ctx ρ ε : Type) where
  ID : String
  HandleBuild : Ctx → BuildInput ρ → BuildHandler Ctx ρ ε →
    BuildOutput ρ × Option ε

/-- BuildMiddlewareFunc returns a BuildMiddleware with the unique ID
provided, and the func to be invoked (step_build.go `BuildMiddlewareFunc` /
`buildMiddlewareFunc`, whose `ID` returns the stored id and whose
`HandleBuild` invokes the stored fn). -/
def BuildMiddlewareFunc {Ctx ρ ε : Type} (id : String)
    (fn : Ctx → BuildInput ρ → BuildHandler Ctx ρ ε →
      BuildOutput ρ × Option ε) : BuildMiddleware Ctx ρ ε :=
  { ID := id, HandleBuild := fn }

/-- An entry of the step's registry.  The registry stores opaque identified
entries; `BuildStep` reads them back through the unchecked type assertion
`.(BuildMiddleware)`.  The `other` constructor stands for any identified
value that is not a BuildMiddleware, so the safety of those assertions is a
statement, not a typing triviality. -/
inductive StepEntry (Ctx ρ ε : Type) : Type
  | build (m : BuildMiddleware Ctx ρ ε)
  | other (id : String)

/-- The identifier of a registry entry (Go's `ider.ID()`). -/
def StepEntry.entryID {Ctx ρ ε : Type} : StepEntry Ctx ρ ε → String
  | .build m => m.ID
  | .other id => id

/-- The `.(BuildMiddleware)` type assertion on a registry entry: `none`
means the assertion fails (a run-time panic in Go). -/
def StepEntry.asBuild {Ctx ρ ε : Type} :
    StepEntry Ctx ρ ε → Option (BuildMiddleware Ctx ρ ε)
  | .build m => some m
  | .other _ => none

/-- Perform the `.(BuildMiddleware)` assertion on every entry of the order
snapshot, as the chain-building loop of `BuildStep.HandleMiddleware` does;
`none` when some assertion fails. -/
def castOrder {Ctx ρ ε : Type} :
    List (StepEntry Ctx ρ ε) → Option (List (BuildMiddleware Ctx ρ ε))
  | [] => some []
  | e :: rest =>
    match e.asBuild, castOrder rest with
    | some m, some ms => some (m :: ms)
    | _, _ => none

/-- BuildStep provides the ordered grouping of BuildMiddleware to be
invoked on a handler (step_build.go `BuildStep`). -/
structure BuildStep (Ctx ρ ε : Type) where
  ids : orderedIDs (StepEntry Ctx ρ ε)

/-- NewBuildStep returns a BuildStep ready to have middleware added
(step_build.go `NewBuildStep`). -/
def NewBuildStep {Ctx ρ ε : Type} : BuildStep Ctx ρ ε :=
  ⟨⟨[]⟩⟩

/-- ID returns the unique name of the step as a middleware (step_build.go
`BuildStep.ID`). -/
def BuildStep.stepID {Ctx ρ ε : Type} (_ : BuildStep Ctx ρ ε) : String :=
  "Build stack step"

/-- buildWrapHandler converts types and delegates to the underlying generic
handler: it calls `Next.Handle` on the input's `Request`, returns a zero
`BuildOutput` with the error when the handler fails, and wraps the result
in a `BuildOutput` otherwise (step_build.go `buildWrapHandler.HandleBuild`). -/
def buildWrapHandler {Ctx ρ ε : Type} (Next : Handler Ctx (Option ρ) ε) :
    BuildHandler Ctx ρ ε :=
  ⟨fun ctx input =>
    match Next.Handle ctx input.Request with
    | (_, some e) => (⟨none⟩, some e)
    | (res, none) => (⟨res⟩, none)⟩

/-- decoratedBuildHandler invokes `With.HandleBuild` with `Next` as the
next handler (step_build.go `decoratedBuildHandler.HandleBuild`). -/
def decoratedBuildHandler {Ctx ρ ε : Type} (With : BuildMiddleware Ctx ρ ε)
    (Next : BuildHandler Ctx ρ ε) : BuildHandler Ctx ρ ε :=
  ⟨fun ctx input => With.HandleBuild ctx input Next⟩

/-- HandleMiddleware invokes the step's middleware by decorating the next
handler (step_build.go `BuildStep.HandleMiddleware`): take the registry's
`GetOrder()` snapshot, wrap `next` in `buildWrapHandler`, fold the order
from last to first through `decoratedBuildHandler` (asserting each entry to
`BuildMiddleware`; `none` here models the Go panic when one of those
assertions fails), wrap the input in a `BuildInput`, invoke, and on error
return `(nil, err)`, otherwise `(res.Result, nil)`. -/
def BuildStep.HandleMiddleware {Ctx ρ ε : Type} (s : BuildStep Ctx ρ ε)
    (ctx : Ctx) (input : Option ρ) (next : Handler Ctx (Option ρ) ε) :
    Option (Option ρ × Option ε) :=
  match castOrder s.ids.GetOrder with
  | none => none
  | some order =>
    let h : BuildHandler Ctx ρ ε :=
      order.foldr decoratedBuildHandler (buildWrapHandler next)
    let sIn : BuildInput ρ := ⟨input⟩
    match h.HandleBuild ctx sIn with
    | (_, some e) => some (none, some e)
    | (res, none) => some (res.Result, none)

/-- Add injects the middleware at the relative position of the group
(step_build.go `BuildStep.Add`, a pass-through to the registry). -/
def BuildStep.Add {Ctx ρ ε : Type} (s : BuildStep Ctx ρ ε)
    (m : BuildMiddleware Ctx ρ ε) (pos : RelativePosition) :
    BuildStep Ctx ρ ε × Option RegistryError :=
  let r := s.ids.Add StepEntry.entryID (.build m) pos
  (⟨r.1⟩, r.2)

/-- Insert injects the middleware relative to an existing middleware id
(step_build.go `BuildStep.Insert`, a pass-through to the registry). -/
def BuildStep.Insert {Ctx ρ ε : Type} (s : BuildStep Ctx ρ ε)
    (m : BuildMiddleware Ctx ρ ε) (relativeTo : String)
    (pos : RelativePosition) : BuildStep Ctx ρ ε × Option RegistryError :=
  let r := s.ids.Insert StepEntry.entryID (.build m) relativeTo pos
  (⟨r.1⟩, r.2)

/-- The outcome of `BuildStep.Swap`: the removed middleware, a registry
error, or a failed `removed.(BuildMiddleware)` assertion (a Go panic). -/
inductive SwapResult (Ctx ρ ε : Type) : Type
  | ok (removed : BuildMiddleware Ctx ρ ε)
  | err (e : RegistryError)
  | castFailure

/-- Swap removes the middleware by id, replacing it with the new one, and
returns the removed middleware through the `removed.(BuildMiddleware)`
assertion (step_build.go `BuildStep.Swap`). -/
def BuildStep.Swap {Ctx ρ ε : Type} (s : BuildStep Ctx ρ ε) (id : String)
    (m : BuildMiddleware Ctx ρ ε) :
    BuildStep Ctx ρ ε × SwapResult Ctx ρ ε :=
  match s.ids.Swap StepEntry.entryID id (.build m) with
  | (ids, .error e) => (⟨ids⟩, .err e)
  | (ids, .ok removed) =>
    match removed.asBuild with
    | some r => (⟨ids⟩, .ok r)
    | none => (⟨ids⟩, .castFailure)

/-- Remove removes the middleware by id (step_build.go `BuildStep.Remove`,
a pass-through to the registry). -/
def BuildStep.Remove {Ctx ρ ε : Type} (s : BuildStep Ctx ρ ε)
    (id : String) : BuildStep Ctx ρ ε × Option RegistryError :=
  let r := s.ids.Remove StepEntry.entryID id
  (⟨r.1⟩, r.2)

/-- Clear removes all middleware in the step (step_build.go
`BuildStep.Clear`); its Go signature returns nothing, so failure is
impossible. -/
def BuildStep.Clear {Ctx ρ ε : Type} (s : BuildStep Ctx ρ ε) :
    BuildStep Ctx ρ ε :=
  ⟨s.ids.Clear⟩

/-- One mutation of a BuildStep, for reasoning about arbitrary operation
sequences. -/
inductive StepOp (Ctx ρ ε : Type) : Type
  | add (m : BuildMiddleware Ctx ρ ε) (pos : RelativePosition)
  | ins (m : BuildMiddleware Ctx ρ ε) (relativeTo : String)
      (pos : RelativePosition)
  | swp (id : String) (m : BuildMiddleware Ctx ρ ε)
  | rem (id : String)
  | clr

/-- Apply one mutation; on failure the step is left as it was. -/
def BuildStep.applyOp {Ctx ρ ε : Type} (s : BuildStep Ctx ρ ε) :
    StepOp Ctx ρ ε → BuildStep Ctx ρ ε
  | .add m pos => (s.Add m pos).1
  | .ins m relativeTo pos => (s.Insert m relativeTo pos).1
  | .swp id m => (s.Swap id m).1
  | .rem id => (s.Remove id).1
  | .clr => s.Clear

/-- Apply a sequence of mutations in order. -/
def BuildStep.runOps {Ctx ρ ε : Type} (s : BuildStep Ctx ρ ε) :
    List (StepOp Ctx ρ ε) → BuildStep Ctx ρ ε
  | [] => s
  | op :: rest => (s.applyOp op).runOps rest

/-- The identifiers stored in the step's registry are pairwise distinct. -/
def distinctIDs {Ctx ρ ε : Type} (s : BuildStep Ctx ρ ε) : Prop :=
  (s.ids.order.map StepEntry.entryID).Nodup

/-- Every entry of the step's registry passes the `.(BuildMiddleware)`
assertion. -/
def allBuild {Ctx ρ ε : Type} (s : BuildStep Ctx ρ ε) : Prop :=
  ∀ e ∈ s.ids.order, (StepEntry.asBuild e).isSome = true

/-- The registry invariant maintained by every BuildStep operation. -/
def goodStep {Ctx ρ ε : Type} (s : BuildStep Ctx ρ ε) : Prop :=
  distinctIDs s ∧ allBuild s

/-! Concrete instances used to exercise the theorems on closed inputs. -/

/-- A concrete generic middleware that delegates unchanged. -/
def cDeleg (id : String) : Middleware Unit Nat Unit :=
  ⟨id, fun ctx x n => n.Handle ctx x⟩

/-- A concrete generic middleware that delegates with the input doubled. -/
def cDouble : Middleware Unit Nat Unit :=
  ⟨"double", fun ctx x n => n.Handle ctx (2 * x)⟩

/-- A concrete generic middleware that short-circuits, never calling the
next handler. -/
def cShort : Middleware Unit Nat Unit :=
  ⟨"short", fun _ x _ => (x + 7, none)⟩

/-- A concrete generic middleware that always fails. -/
def cFail : Middleware Unit Nat Unit :=
  ⟨"fail", fun _ x _ => (x, some ())⟩

/-- A concrete terminal handler that succeeds with its input plus one. -/
def cTerm : Handler Unit Nat Unit :=
  ⟨fun _ x => (x + 1, none)⟩

/-- Another concrete terminal handler, distinguishable from `cTerm`. -/
def cTerm2 : Handler Unit Nat Unit :=
  ⟨fun _ x => (x * 5, none)⟩

/-- A concrete build middleware that delegates unchanged. -/
def cBuild (id : String) : BuildMiddleware Unit Nat Unit :=
  ⟨id, fun ctx input next => next.HandleBuild ctx input⟩

/-- A concrete generic next handler for the build stage, succeeding with
the request unchanged. -/
def cNext : Handler Unit (Option Nat) Unit :=
  ⟨fun _ x => (x, none)⟩

/-- A concrete generic next handler for the build stage that always
fails. -/
def cNextFail : Handler Unit (Option Nat) Unit :=
  ⟨fun _ x => (x, some ())⟩

/-! Helper lemmas. -/

lemma decorate_delegating {Ctx ι ε : Type} (ds : List (Middleware Ctx ι ε))
    (hds : ∀ d ∈ ds, Delegates d) (h : Handler Ctx ι ε) (ctx : Ctx) (x : ι) :
    (DecorateHandler h ds).Handle ctx x = h.Handle ctx x := by
  induction ds with
  | nil => rfl
  | cons d ds ih =>
    have hd : Delegates d := hds d (List.mem_cons_self d ds)
    have step : (DecorateHandler h (d :: ds)).Handle ctx x
        = (DecorateHandler h ds).Handle ctx x := hd ctx x _
    rw [step, ih (fun d' hd' => hds d' (List.mem_cons_of_mem d hd'))]

lemma decorate_append {Ctx ι ε : Type} (h : Handler Ctx ι ε)
    (l₁ l₂ : List (Middleware Ctx ι ε)) :
    DecorateHandler h (l₁ ++ l₂) = DecorateHandler (DecorateHandler h l₂) l₁ :=
  List.foldr_append _ _ _ _

lemma hasID_true_iff {τ : Type} (idOf : τ → String) (l : List τ)
    (id : String) : hasID idOf l id = true ↔ ∃ e ∈ l, idOf e = id := by
  simp [hasID, List.any_eq_true]

lemma hasID_false_iff {τ : Type} (idOf : τ → String) (l : List τ)
    (id : String) : hasID idOf l id = false ↔ ∀ e ∈ l, idOf e ≠ id := by
  rw [← Bool.not_eq_true, hasID_true_iff]
  push_neg
  rfl

lemma insertRel_some {τ : Type} (idOf : τ → String) (m : τ) (anchor : String)
    (pos : RelativePosition) (l l' : List τ)
    (h : insertRel idOf m anchor pos l = some l') :
    ∃ pre post, l = pre ++ post ∧ l' = pre ++ m :: post := by
  induction l generalizing l' with
  | nil => simp [insertRel] at h
  | cons e rest ih =>
    simp only [insertRel] at h
    by_cases he : idOf e = anchor
    · rw [if_pos he] at h
      cases pos with
      | Before =>
        refine ⟨[], e :: rest, rfl, ?_⟩
        simpa using h.symm
      | After =>
        refine ⟨[e], rest, rfl, ?_⟩
        simpa using h.symm
    · rw [if_neg he] at h
      obtain ⟨l'', hl'', rfl⟩ := Option.map_eq_some'.mp h
      obtain ⟨pre, post, h1, h2⟩ := ih l'' hl''
      exact ⟨e :: pre, post, by simp [h1], by simp [h2]⟩

lemma swapRel_some {τ : Type} (idOf : τ → String) (id : String) (m r : τ)
    (l l' : List τ) (h : swapRel idOf id m l = some (r, l')) :
    ∃ pre post, l = pre ++ r :: post ∧ l' = pre ++ m :: post ∧ idOf r = id := by
  induction l generalizing l' with
  | nil => simp [swapRel] at h
  | cons e rest ih =>
    rw [swapRel] at h
    by_cases he : idOf e = id
    · rw [if_pos he] at h
      obtain ⟨h1, h2⟩ := Prod.mk.injEq .. ▸ Option.some.inj h
      exact ⟨[], rest, by simp [h1], by simp [← h2], h1 ▸ he⟩
    · rw [if_neg he] at h
      obtain ⟨⟨r', l''⟩, hl'', hmap⟩ := Option.map_eq_some'.mp h
      obtain ⟨hr, hl⟩ := Prod.mk.injEq .. ▸ hmap
      obtain ⟨pre, post, h1, h2, h3⟩ := ih l'' (hr ▸ hl'')
      exact ⟨e :: pre, post, by simp [h1], by simp [← hl, h2], h3⟩

lemma removeRel_sublist {τ : Type} (idOf : τ → String) (id : String)
    (l l' : List τ) (h : removeRel idOf id l = some l') : l'.Sublist l := by
  induction l generalizing l' with
  | nil => simp [removeRel] at h
  | cons e rest ih =>
    rw [removeRel] at h
    by_cases he : idOf e = id
    · rw [if_pos he] at h
      rw [← Option.some.inj h]
      exact List.sublist_cons_self e rest
    · rw [if_neg he] at h
      obtain ⟨l'', hl'', rfl⟩ := Option.map_eq_some'.mp h
      exact List.Sublist.cons₂ e (ih l'' hl'')

lemma nodup_map_middle {τ : Type} (idOf : τ → String) (pre post : List τ)
    (m : τ) (h : ((pre ++ post).map idOf).Nodup)
    (hm : idOf m ∉ (pre ++ post).map idOf) :
    ((pre ++ m :: post).map idOf).Nodup := by
  rw [List.map_append, List.map_cons, List.nodup_middle]
  refine List.nodup_cons.mpr ⟨?_, ?_⟩
  · simpa [List.map_append] using hm
  · simpa [List.map_append] using h

lemma not_mem_map_of_hasID_false {τ : Type} (idOf : τ → String) (l : List τ)
    (id : String) (h : hasID idOf l id = false) : id ∉ l.map idOf := by
  intro hmem
  obtain ⟨e, he, rfl⟩ := List.mem_map.mp hmem
  exact (hasID_false_iff idOf l _).mp h e he rfl

lemma nodup_insertRel {τ : Type} (idOf : τ → String) (m : τ)
    (anchor : String) (pos : RelativePosition) (l l' : List τ)
    (hl : (l.map idOf).Nodup) (hm : idOf m ∉ l.map idOf)
    (h : insertRel idOf m anchor pos l = some l') : (l'.map idOf).Nodup := by
  obtain ⟨pre, post, rfl, rfl⟩ := insertRel_some idOf m anchor pos l l' h
  exact nodup_map_middle idOf pre post m hl hm

lemma mem_insertRel {τ : Type} (idOf : τ → String) (m : τ) (anchor : String)
    (pos : RelativePosition) (l l' : List τ)
    (h : insertRel idOf m anchor pos l = some l') :
    ∀ e ∈ l', e = m ∨ e ∈ l := by
  obtain ⟨pre, post, rfl, rfl⟩ := insertRel_some idOf m anchor pos l l' h
  intro e he
  rcases List.mem_append.mp he with hpre | hrest
  · exact Or.inr (List.mem_append.mpr (Or.inl hpre))
  · rcases List.mem_cons.mp hrest with rfl | hpost
    · exact Or.inl rfl
    · exact Or.inr (List.mem_append.mpr (Or.inr hpost))

lemma nodup_swapRel {τ : Type} (idOf : τ → String) (id : String) (m r : τ)
    (l l' : List τ) (hl : (l.map idOf).Nodup)
    (hm : idOf m = id ∨ idOf m ∉ l.map idOf)
    (h : swapRel idOf id m l = some (r, l')) : (l'.map idOf).Nodup := by
  obtain ⟨pre, post, rfl, rfl, hr⟩ := swapRel_some idOf id m r l l' h
  rcases hm with hm | hm
  · have : (pre ++ m :: post).map idOf = (pre ++ r :: post).map idOf := by
      simp [hm, hr]
    rw [this]
    exact hl
  · have hsub : ((pre ++ post).map idOf).Sublist ((pre ++ r :: post).map idOf) :=
      List.Sublist.map idOf ((List.append_sublist_append_left pre).mpr
        (List.sublist_cons_self r post))
    refine nodup_map_middle idOf pre post m (hl.sublist hsub) ?_
    exact fun hmem => hm (hsub.mem hmem)

lemma mem_swapRel {τ : Type} (idOf : τ → String) (id : String) (m r : τ)
    (l l' : List τ) (h : swapRel idOf id m l = some (r, l')) :
    (∀ e ∈ l', e = m ∨ e ∈ l) ∧ r ∈ l := by
  obtain ⟨pre, post, rfl, rfl, _⟩ := swapRel_some idOf id m r l l' h
  constructor
  · intro e he
    rcases List.mem_append.mp he with hpre | hrest
    · exact Or.inr (List.mem_append.mpr (Or.inl hpre))
    · rcases List.mem_cons.mp hrest with rfl | hpost
      · exact Or.inl rfl
      · exact Or.inr (List.mem_append.mpr (Or.inr (List.mem_cons_of_mem r hpost)))
  · exact List.mem_append.mpr (Or.inr (List.mem_cons_self r post))

lemma goodStep_Add {Ctx ρ ε : Type} (s : BuildStep Ctx ρ ε)
    (m : BuildMiddleware Ctx ρ ε) (pos : RelativePosition) (h : goodStep s) :
    goodStep (s.Add m pos).1 := by
  obtain ⟨hd, hb⟩ := h
  by_cases hdup : hasID StepEntry.entryID s.ids.order
      (StepEntry.entryID (.build m)) = true
  · simp only [BuildStep.Add, orderedIDs.Add, hdup, if_true]
    exact ⟨hd, hb⟩
  · rw [Bool.not_eq_true] at hdup
    have hnotmem : StepEntry.entryID (StepEntry.build m)
        ∉ s.ids.order.map StepEntry.entryID :=
      not_mem_map_of_hasID_false _ _ _ hdup
    cases pos with
    | Before =>
      simp only [BuildStep.Add, orderedIDs.Add, hdup, Bool.false_eq_true,
        if_false]
      refine ⟨List.nodup_cons.mpr ⟨hnotmem, hd⟩, ?_⟩
      intro e he
      rcases List.mem_cons.mp he with rfl | he'
      · rfl
      · exact hb e he'
    | After =>
      simp only [BuildStep.Add, orderedIDs.Add, hdup, Bool.false_eq_true,
        if_false]
      constructor
      · show ((s.ids.order ++ [StepEntry.build m]).map StepEntry.entryID).Nodup
        rw [List.map_append, List.nodup_append_comm]
        exact List.nodup_cons.mpr ⟨hnotmem, hd⟩
      · intro e he
        rcases List.mem_append.mp he with he' | he'
        · exact hb e he'
        · rw [List.mem_singleton.mp he']
          rfl

lemma goodStep_Insert {Ctx ρ ε : Type} (s : BuildStep Ctx ρ ε)
    (m : BuildMiddleware Ctx ρ ε) (relativeTo : String)
    (pos : RelativePosition) (h : goodStep s) :
    goodStep (s.Insert m relativeTo pos).1 := by
  obtain ⟨hd, hb⟩ := h
  by_cases hdup : hasID StepEntry.entryID s.ids.order
      (StepEntry.entryID (.build m)) = true
  · simp only [BuildStep.Insert, orderedIDs.Insert, hdup, if_true]
    exact ⟨hd, hb⟩
  · rw [Bool.not_eq_true] at hdup
    rcases hins : insertRel StepEntry.entryID (StepEntry.build m) relativeTo
        pos s.ids.order with _ | l
    · simp only [BuildStep.Insert, orderedIDs.Insert, hdup,
        Bool.false_eq_true, if_false, hins]
      exact ⟨hd, hb⟩
    · simp only [BuildStep.Insert, orderedIDs.Insert, hdup,
        Bool.false_eq_true, if_false, hins]
      constructor
      · exact nodup_insertRel StepEntry.entryID _ _ _ _ _ hd
          (not_mem_map_of_hasID_false _ _ _ hdup) hins
      · intro e he
        rcases mem_insertRel StepEntry.entryID _ _ _ _ _ hins e he with
          rfl | he'
        · rfl
        · exact hb e he'

lemma goodStep_Swap {Ctx ρ ε : Type} (s : BuildStep Ctx ρ ε) (id : String)
    (m : BuildMiddleware Ctx ρ ε) (h : goodStep s) :
    goodStep (s.Swap id m).1 := by
  obtain ⟨hd, hb⟩ := h
  by_cases hg : (hasID StepEntry.entryID s.ids.order
      (StepEntry.entryID (.build m))
      && StepEntry.entryID (StepEntry.build m) != id) = true
  · simp only [BuildStep.Swap, orderedIDs.Swap, hg, if_true]
    exact ⟨hd, hb⟩
  · rw [Bool.not_eq_true] at hg
    have hm : StepEntry.entryID (StepEntry.build m) = id ∨
        StepEntry.entryID (StepEntry.build m)
          ∉ s.ids.order.map StepEntry.entryID := by
      rcases Bool.and_eq_false_iff.mp hg with h1 | h1
      · exact Or.inr (not_mem_map_of_hasID_false _ _ _ h1)
      · exact Or.inl (by simpa using h1)
    rcases hswap : swapRel StepEntry.entryID id (StepEntry.build m)
        s.ids.order with _ | ⟨r, l'⟩
    · simp only [BuildStep.Swap, orderedIDs.Swap, hg, Bool.false_eq_true,
        if_false, hswap]
      exact ⟨hd, hb⟩
    · have hgood : goodStep (⟨⟨l'⟩⟩ : BuildStep Ctx ρ ε) := by
        constructor
        · exact nodup_swapRel StepEntry.entryID id _ r _ _ hd hm hswap
        · intro e he
          rcases (mem_swapRel StepEntry.entryID id _ r _ _ hswap).1 e he with
            rfl | he'
          · rfl
          · exact hb e he'
      cases hr : r.asBuild with
      | some rm =>
        simp only [BuildStep.Swap, orderedIDs.Swap, hg, Bool.false_eq_true,
          if_false, hswap, hr]
        exact hgood
      | none =>
        simp only [BuildStep.Swap, orderedIDs.Swap, hg, Bool.false_eq_true,
          if_false, hswap, hr]
        exact hgood

lemma goodStep_Remove {Ctx ρ ε : Type} (s : BuildStep Ctx ρ ε)
    (id : String) (h : goodStep s) : goodStep (s.Remove id).1 := by
  obtain ⟨hd, hb⟩ := h
  rcases hrem : removeRel StepEntry.entryID id s.ids.order with _ | l
  · simp only [BuildStep.Remove, orderedIDs.Remove, hrem]
    exact ⟨hd, hb⟩
  · have hsub := removeRel_sublist StepEntry.entryID id _ _ hrem
    simp only [BuildStep.Remove, orderedIDs.Remove, hrem]
    constructor
    · exact hd.sublist (List.Sublist.map StepEntry.entryID hsub)
    · exact fun e he => hb e (hsub.mem he)

lemma goodStep_applyOp {Ctx ρ ε : Type} (s : BuildStep Ctx ρ ε)
    (op : StepOp Ctx ρ ε) (h : goodStep s) : goodStep (s.applyOp op) := by
  cases op with
  | add m pos => exact goodStep_Add s m pos h
  | ins m relativeTo pos => exact goodStep_Insert s m relativeTo pos h
  | swp id m => exact goodStep_Swap s id m h
  | rem id => exact goodStep_Remove s id h
  | clr => exact ⟨List.nodup_nil, fun e he => absurd he (List.not_mem_nil e)⟩

lemma goodStep_runOps {Ctx ρ ε : Type} (s : BuildStep Ctx ρ ε)
    (ops : List (StepOp Ctx ρ ε)) (h : goodStep s) :
    goodStep (s.runOps ops) := by
  induction ops generalizing s with
  | nil => exact h
  | cons op rest ih => exact ih _ (goodStep_applyOp s op h)

lemma goodStep_new {Ctx ρ ε : Type} : goodStep (@NewBuildStep Ctx ρ ε) :=
  ⟨List.nodup_nil, fun e he => absurd he (List.not_mem_nil e)⟩

lemma castOrder_isSome {Ctx ρ ε : Type} (l : List (StepEntry Ctx ρ ε))
    (h : ∀ e ∈ l, (StepEntry.asBuild e).isSome = true) :
    (castOrder l).isSome = true := by
  induction l with
  | nil => rfl
  | cons e rest ih =>
    obtain ⟨m, hm⟩ :=
      Option.isSome_iff_exists.mp (h e (List.mem_cons_self e rest))
    obtain ⟨ms, hms⟩ := Option.isSome_iff_exists.mp
      (ih fun e' he' => h e' (List.mem_cons_of_mem e he'))
    simp [castOrder, hm, hms]

lemma handleMiddleware_isSome {Ctx ρ ε : Type} (s : BuildStep Ctx ρ ε)
    (hb : allBuild s) (ctx : Ctx) (input : Option ρ)
    (next : Handler Ctx (Option ρ) ε) :
    (s.HandleMiddleware ctx input next).isSome = true := by
  obtain ⟨order, horder⟩ :=
    Option.isSome_iff_exists.mp (castOrder_isSome s.ids.order hb)
  simp only [BuildStep.HandleMiddleware, orderedIDs.GetOrder, horder]
  rcases hres : (order.foldr decoratedBuildHandler
      (buildWrapHandler next)).HandleBuild ctx ⟨input⟩ with ⟨res, err⟩
  cases err <;> simp

lemma hasID_cons {τ : Type} (idOf : τ → String) (e : τ) (l : List τ)
    (id : String) :
    hasID idOf (e :: l) id = ((idOf e == id) || hasID idOf l id) :=
  rfl

lemma hasID_append {τ : Type} (idOf : τ → String) (l₁ l₂ : List τ)
    (id : String) :
    hasID idOf (l₁ ++ l₂) id = (hasID idOf l₁ id || hasID idOf l₂ id) :=
  List.any_append

lemma insertRel_after_anchor {τ : Type} (idOf : τ → String) (x a : τ)
    (pre post : List τ) (hpre : ∀ e ∈ pre, idOf e ≠ idOf a) :
    insertRel idOf x (idOf a) .After (pre ++ a :: post)
      = some (pre ++ a :: x :: post) := by
  induction pre with
  | nil => simp [insertRel]
  | cons e rest ih =>
    have he : idOf e ≠ idOf a := hpre e (List.mem_cons_self e rest)
    have ih' := ih fun e' he' => hpre e' (List.mem_cons_of_mem e he')
    simp [insertRel, he, ih']

lemma swap_no_castFailure {Ctx ρ ε : Type} (s : BuildStep Ctx ρ ε)
    (hb : allBuild s) (id : String) (m : BuildMiddleware Ctx ρ ε) :
    (s.Swap id m).2 ≠ SwapResult.castFailure := by
  by_cases hg : (hasID StepEntry.entryID s.ids.order
      (StepEntry.entryID (.build m))
      && StepEntry.entryID (StepEntry.build m) != id) = true
  · simp [BuildStep.Swap, orderedIDs.Swap, hg]
  · rw [Bool.not_eq_true] at hg
    rcases hswap : swapRel StepEntry.entryID id (StepEntry.build m)
        s.ids.order with _ | ⟨r, l'⟩
    · simp [BuildStep.Swap, orderedIDs.Swap, hg, hswap]
    · have hr : r ∈ s.ids.order :=
        (mem_swapRel StepEntry.entryID id _ r _ _ hswap).2
      obtain ⟨rm, hrm⟩ := Option.isSome_iff_exists.mp (hb r hr)
      simp [BuildStep.Swap, orderedIDs.Swap, hg, hswap, hrm]

lemma add_before_order {Ctx ρ ε : Type} (t : BuildStep Ctx ρ ε)
    (m : BuildMiddleware Ctx ρ ε)
    (h : hasID StepEntry.entryID t.ids.order m.ID = false) :
    (t.Add m .Before).1.ids.order = StepEntry.build m :: t.ids.order := by
  simp only [BuildStep.Add, orderedIDs.Add, StepEntry.entryID, h,
    Bool.false_eq_true, if_false]

lemma insert_after_order {Ctx ρ ε : Type} (t : BuildStep Ctx ρ ε)
    (m2 : BuildMiddleware Ctx ρ ε) (anchor : String)
    (l : List (StepEntry Ctx ρ ε))
    (hdup : hasID StepEntry.entryID t.ids.order m2.ID = false)
    (hins : insertRel StepEntry.entryID (StepEntry.build m2) anchor
      RelativePosition.After t.ids.order = some l) :
    (t.Insert m2 anchor .After).1.ids.order = l := by
  simp only [BuildStep.Insert, orderedIDs.Insert, StepEntry.entryID, hdup,
    Bool.false_eq_true, if_false, hins]

/-! The claims. -/

/-- C1: DecorateHandler builds the composed handler by iterating the
middleware list from last to first, wrapping at each step, so that the
first middleware of the list is outermost: decorating with the empty list
is the identity, the last list element is the first wrapped around the
terminal, and invoking the handler decorated with `m :: ms` runs `m`
first, handing it the composition of `ms` around `h` as its next
handler. -/
theorem C1_decorate_handler_order :
    ∀ (Ctx ι ε : Type) (h : Handler Ctx ι ε),
    (DecorateHandler h ([] : List (Middleware Ctx ι ε)) = h)
    ∧ (∀ (ms : List (Middleware Ctx ι ε)) (m : Middleware Ctx ι ε),
        DecorateHandler h (ms ++ [m])
          = DecorateHandler (decoratedHandler m h) ms)
    ∧ (∀ (m : Middleware Ctx ι ε) (ms : List (Middleware Ctx ι ε))
        (ctx : Ctx) (x : ι),
        (DecorateHandler h (m :: ms)).Handle ctx x
          = m.HandleMiddleware ctx x (DecorateHandler h ms)) := by
  intro Ctx ι ε h
  refine ⟨rfl, ?_, ?_⟩
  · intro ms m
    exact decorate_append h ms [m]
  · intro m ms ctx x
    rfl

/-- C2: for the handler composed from `[A, B]` around terminal `T` invoked
with `x`: if A and B both delegate unmodified, T is invoked with x; if A
delegates with the modified input `f x`, B is invoked with `f x` and, when
B also delegates unmodified, so is T; and if B short-circuits (its result
never consults the next handler), the composed result is independent of
the terminal, i.e. T is never invoked. -/
theorem C2_two_middleware_scenarios :
    ∀ (Ctx ι ε : Type) (A B : Middleware Ctx ι ε) (T : Handler Ctx ι ε)
      (ctx : Ctx) (x : ι),
    (Delegates A → Delegates B →
      (DecorateHandler T [A, B]).Handle ctx x = T.Handle ctx x)
    ∧ (∀ f : ι → ι,
        (∀ (c : Ctx) (y : ι) (n : Handler Ctx ι ε),
            A.HandleMiddleware c y n = n.Handle c (f y)) →
        ((DecorateHandler T [A, B]).Handle ctx x
            = B.HandleMiddleware ctx (f x) T)
        ∧ (Delegates B →
            (DecorateHandler T [A, B]).Handle ctx x = T.Handle ctx (f x)))
    ∧ (∀ g : Ctx → ι → ι × Option ε,
        (∀ (c : Ctx) (y : ι) (n : Handler Ctx ι ε),
            B.HandleMiddleware c y n = g c y) →
        ∀ T' : Handler Ctx ι ε,
          (DecorateHandler T [A, B]).Handle ctx x
            = (DecorateHandler T' [A, B]).Handle ctx x) := by
  intro Ctx ι ε A B T ctx x
  refine ⟨?_, ?_, ?_⟩
  · intro hA hB
    show A.HandleMiddleware ctx x (DecorateHandler T [B]) = T.Handle ctx x
    rw [hA]
    show B.HandleMiddleware ctx x (DecorateHandler T []) = T.Handle ctx x
    rw [hB]
    rfl
  · intro f hA
    constructor
    · show A.HandleMiddleware ctx x (DecorateHandler T [B])
        = B.HandleMiddleware ctx (f x) T
      rw [hA]
      rfl
    · intro hB
      show A.HandleMiddleware ctx x (DecorateHandler T [B])
        = T.Handle ctx (f x)
      rw [hA]
      show B.HandleMiddleware ctx (f x) (DecorateHandler T [])
        = T.Handle ctx (f x)
      rw [hB]
      rfl
  · intro g hB T'
    have hsame : DecorateHandler T [B] = DecorateHandler T' [B] := by
      show decoratedHandler B (DecorateHandler T [])
        = decoratedHandler B (DecorateHandler T' [])
      unfold decoratedHandler
      congr 1
      funext c y
      rw [hB, hB]
    show A.HandleMiddleware ctx x (DecorateHandler T [B])
      = A.HandleMiddleware ctx x (DecorateHandler T' [B])
    rw [hsame]

/-- C2 witness: with two concrete delegating middleware around `cTerm` the
terminal observes the input 3, and with the short-circuiting `cShort` in
second position the composed result is the same for the terminals `cTerm`
and `cTerm2`. -/
theorem C2_two_middleware_scenarios_witness :
    ((DecorateHandler cTerm [cDeleg "A", cDeleg "B"]).Handle () 3
      = cTerm.Handle () 3)
    ∧ ((DecorateHandler cTerm [cDeleg "A", cShort]).Handle () 3
      = (DecorateHandler cTerm2 [cDeleg "A", cShort]).Handle () 3) :=
  ⟨(C2_two_middleware_scenarios Unit Nat Unit (cDeleg "A") (cDeleg "B")
      cTerm () 3).1 (fun _ _ _ => rfl) (fun _ _ _ => rfl),
   (C2_two_middleware_scenarios Unit Nat Unit (cDeleg "A") cShort
      cTerm () 3).2.2 (fun _ y => (y + 7, none)) (fun _ _ _ => rfl) cTerm2⟩

/-- C3: BuildStep.HandleMiddleware (1) wraps next in the buildWrapHandler
terminal adapter, which calls next.Handle with the BuildInput's Request
field and repackages the result into a BuildOutput; (2) composes the chain
over the GetOrder() snapshot with the first entry outermost; (3) wraps the
generic input as BuildInput; (4) invokes the composed chain; (5) on success
returns the BuildOutput's Result with a nil error, and on failure
propagates the chain's error unchanged with a nil output. -/
theorem C3_build_step_handle :
    ∀ (Ctx ρ ε : Type) (s : BuildStep Ctx ρ ε) (ctx : Ctx)
      (input : Option ρ) (next : Handler Ctx (Option ρ) ε)
      (order : List (BuildMiddleware Ctx ρ ε)),
    castOrder s.ids.GetOrder = some order →
    ((∀ (c : Ctx) (bin : BuildInput ρ) (res : Option ρ),
        next.Handle c bin.Request = (res, none) →
        (buildWrapHandler next).HandleBuild c bin = (⟨res⟩, none))
    ∧ (∀ (c : Ctx) (bin : BuildInput ρ) (res : Option ρ) (e : ε),
        next.Handle c bin.Request = (res, some e) →
        (buildWrapHandler next).HandleBuild c bin = (⟨none⟩, some e))
    ∧ (∀ (m : BuildMiddleware Ctx ρ ε)
        (rest : List (BuildMiddleware Ctx ρ ε)) (term : BuildHandler Ctx ρ ε)
        (c : Ctx) (bin : BuildInput ρ),
        ((m :: rest).foldr decoratedBuildHandler term).HandleBuild c bin
          = m.HandleBuild c bin (rest.foldr decoratedBuildHandler term))
    ∧ (∀ res : BuildOutput ρ,
        (order.foldr decoratedBuildHandler
            (buildWrapHandler next)).HandleBuild ctx ⟨input⟩ = (res, none) →
        s.HandleMiddleware ctx input next = some (res.Result, none))
    ∧ (∀ (res : BuildOutput ρ) (e : ε),
        (order.foldr decoratedBuildHandler
            (buildWrapHandler next)).HandleBuild ctx ⟨input⟩ = (res, some e) →
        s.HandleMiddleware ctx input next = some (none, some e))) := by
  intro Ctx ρ ε s ctx input next order hcast
  refine ⟨?_, ?_, ?_, ?_, ?_⟩
  · intro c bin res hres
    simp [buildWrapHandler, hres]
  · intro c bin res e hres
    simp [buildWrapHandler, hres]
  · intro m rest term c bin
    rfl
  · intro res hres
    simp [BuildStep.HandleMiddleware, hcast, hres]
  · intro res e hres
    simp [BuildStep.HandleMiddleware, hcast, hres]

/-- C3 witness: a step holding the single delegating middleware `cBuild
"b"`, invoked on request `some 5` with the succeeding next handler
`cNext`, returns `some (some 5, none)`. -/
theorem C3_build_step_handle_witness :
    ((NewBuildStep.Add (cBuild "b") RelativePosition.After).1).HandleMiddleware
        () (some 5) cNext = some (some 5, none) :=
  (C3_build_step_handle Unit Nat Unit
      (NewBuildStep.Add (cBuild "b") RelativePosition.After).1 () (some 5)
      cNext [cBuild "b"] rfl).2.2.2.1 ⟨some 5⟩ rfl

/-- C4: an error returned by a middleware or by the terminal handler is
the composed handler's result exactly, regardless of the suffix of the
chain and of the terminal (no later element runs, no wrapping, no retry);
and the build-stage plumbing (buildWrapHandler, BuildStep.HandleMiddleware)
passes the error through unchanged, with a nil output. -/
theorem C4_error_abort_unchanged :
    (∀ (Ctx ι ε : Type) (ctx : Ctx) (x : ι)
       (ds ms : List (Middleware Ctx ι ε)) (m : Middleware Ctx ι ε)
       (o : ι) (e : ε) (h : Handler Ctx ι ε),
       (∀ d ∈ ds, Delegates d) →
       (∀ n : Handler Ctx ι ε, m.HandleMiddleware ctx x n = (o, some e)) →
       (DecorateHandler h (ds ++ m :: ms)).Handle ctx x = (o, some e))
    ∧ (∀ (Ctx ι ε : Type) (ctx : Ctx) (x : ι)
        (ds : List (Middleware Ctx ι ε)) (o : ι) (e : ε)
        (h : Handler Ctx ι ε),
        (∀ d ∈ ds, Delegates d) → h.Handle ctx x = (o, some e) →
        (DecorateHandler h ds).Handle ctx x = (o, some e))
    ∧ (∀ (Ctx ρ ε : Type) (ctx : Ctx) (next : Handler Ctx (Option ρ) ε)
        (bin : BuildInput ρ) (o : Option ρ) (e : ε),
        next.Handle ctx bin.Request = (o, some e) →
        (buildWrapHandler next).HandleBuild ctx bin = (⟨none⟩, some e))
    ∧ (∀ (Ctx ρ ε : Type) (s : BuildStep Ctx ρ ε) (ctx : Ctx)
        (input : Option ρ) (next : Handler Ctx (Option ρ) ε)
        (order : List (BuildMiddleware Ctx ρ ε)) (res : BuildOutput ρ)
        (e : ε),
        castOrder s.ids.GetOrder = some order →
        (order.foldr decoratedBuildHandler
            (buildWrapHandler next)).HandleBuild ctx ⟨input⟩ = (res, some e) →
        s.HandleMiddleware ctx input next = some (none, some e)) := by
  refine ⟨?_, ?_, ?_, ?_⟩
  · intro Ctx ι ε ctx x ds ms m o e h hds hm
    rw [decorate_append, decorate_delegating ds hds]
    exact hm _
  · intro Ctx ι ε ctx x ds o e h hds hh
    rw [decorate_delegating ds hds]
    exact hh
  · intro Ctx ρ ε ctx next bin o e hh
    simp [buildWrapHandler, hh]
  · intro Ctx ρ ε s ctx input next order res e hcast hres
    simp [BuildStep.HandleMiddleware, hcast, hres]

/-- C4 witness: with the failing middleware `cFail` between a delegating
middleware and the suffix `[cDeleg "B"]` around `cTerm`, the composed
handler returns the middleware's pair `(3, some ())` exactly. -/
theorem C4_error_abort_unchanged_witness :
    (DecorateHandler cTerm [cDeleg "A", cFail, cDeleg "B"]).Handle () 3
      = (3, some ()) :=
  C4_error_abort_unchanged.1 Unit Nat Unit () 3 [cDeleg "A"] [cDeleg "B"]
    cFail 3 () cTerm
    (by
      intro d hd
      rw [List.mem_singleton.mp hd]
      intro c y n
      rfl)
    (fun _ => rfl)

/-- C7: BuildMiddlewareFunc produces a middleware whose ID is exactly the
supplied id and whose HandleBuild is exactly the supplied function. -/
theorem C7_func_adapter :
    ∀ (Ctx ρ ε : Type) (id : String)
      (fn : Ctx → BuildInput ρ → BuildHandler Ctx ρ ε →
        BuildOutput ρ × Option ε),
    (BuildMiddlewareFunc id fn).ID = id
    ∧ ∀ (ctx : Ctx) (input : BuildInput ρ) (next : BuildHandler Ctx ρ ε),
        (BuildMiddlewareFunc id fn).HandleBuild ctx input next
          = fn ctx input next :=
  fun _ _ _ _ _ => ⟨rfl, fun _ _ _ => rfl⟩

/-- C8: Clear never fails (its result carries no error at all) and is
idempotent: after one Clear and after two, GetOrder is empty. -/
theorem C8_clear_idempotent :
    ∀ (Ctx ρ ε : Type) (s : BuildStep Ctx ρ ε),
    s.Clear.ids.GetOrder = [] ∧ s.Clear.Clear.ids.GetOrder = [] :=
  fun _ _ _ _ => ⟨rfl, rfl⟩

/-- C5: after any sequence of BuildStep mutations starting from a fresh
step, the identifiers in the registry are pairwise distinct; and every
mutation that returns an error leaves the step exactly as it was. -/
theorem C5_registry_invariants :
    ∀ (Ctx ρ ε : Type),
    (∀ ops : List (StepOp Ctx ρ ε),
        ((NewBuildStep.runOps ops).ids.order.map StepEntry.entryID).Nodup)
    ∧ (∀ (s : BuildStep Ctx ρ ε) (m : BuildMiddleware Ctx ρ ε)
        (pos : RelativePosition) (anchor id : String),
        ((s.Add m pos).2.isSome = true → (s.Add m pos).1 = s)
        ∧ ((s.Insert m anchor pos).2.isSome = true →
            (s.Insert m anchor pos).1 = s)
        ∧ (∀ e : RegistryError,
            (s.Swap id m).2 = SwapResult.err e → (s.Swap id m).1 = s)
        ∧ ((s.Remove id).2.isSome = true → (s.Remove id).1 = s)) := by
  intro Ctx ρ ε
  constructor
  · intro ops
    exact (goodStep_runOps NewBuildStep ops goodStep_new).1
  · intro s m pos anchor id
    refine ⟨?_, ?_, ?_, ?_⟩
    · intro herr
      by_cases hdup : hasID StepEntry.entryID s.ids.order
          (StepEntry.entryID (.build m)) = true
      · simp only [BuildStep.Add, orderedIDs.Add, hdup, if_true]
      · rw [Bool.not_eq_true] at hdup
        cases pos <;>
          simp [BuildStep.Add, orderedIDs.Add, hdup] at herr
    · intro herr
      by_cases hdup : hasID StepEntry.entryID s.ids.order
          (StepEntry.entryID (.build m)) = true
      · simp only [BuildStep.Insert, orderedIDs.Insert, hdup, if_true]
      · rw [Bool.not_eq_true] at hdup
        rcases hins : insertRel StepEntry.entryID (StepEntry.build m) anchor
            pos s.ids.order with _ | l
        · simp only [BuildStep.Insert, orderedIDs.Insert, hdup,
            Bool.false_eq_true, if_false, hins]
        · simp [BuildStep.Insert, orderedIDs.Insert, hdup, hins] at herr
    · intro e herr
      by_cases hg : (hasID StepEntry.entryID s.ids.order
          (StepEntry.entryID (.build m))
          && StepEntry.entryID (StepEntry.build m) != id) = true
      · simp only [BuildStep.Swap, orderedIDs.Swap, hg, if_true]
      · rw [Bool.not_eq_true] at hg
        rcases hswap : swapRel StepEntry.entryID id (StepEntry.build m)
            s.ids.order with _ | ⟨r, l'⟩
        · simp only [BuildStep.Swap, orderedIDs.Swap, hg,
            Bool.false_eq_true, if_false, hswap]
        · cases hr : r.asBuild <;>
            simp [BuildStep.Swap, orderedIDs.Swap, hg, hswap, hr] at herr
    · intro herr
      rcases hrem : removeRel StepEntry.entryID id s.ids.order with _ | l
      · simp only [BuildStep.Remove, orderedIDs.Remove, hrem]
      · simp [BuildStep.Remove, orderedIDs.Remove, hrem] at herr

/-- C5 witness: after `[add (cBuild "a") After]` the identifier list is
duplicate-free, and re-adding the duplicate id "a" errors and leaves the
step unchanged. -/
theorem C5_registry_invariants_witness :
    (((@NewBuildStep Unit Nat Unit).runOps
        [StepOp.add (cBuild "a") RelativePosition.After]).ids.order.map
          StepEntry.entryID).Nodup
    ∧ (((@NewBuildStep Unit Nat Unit).Add (cBuild "a")
          RelativePosition.After).1.Add (cBuild "a")
            RelativePosition.After).1
        = ((@NewBuildStep Unit Nat Unit).Add
            (cBuild "a") RelativePosition.After).1 :=
  ⟨(C5_registry_invariants Unit Nat Unit).1
      [StepOp.add (cBuild "a") RelativePosition.After],
   (((C5_registry_invariants Unit Nat Unit).2
      ((NewBuildStep.Add (cBuild "a") RelativePosition.After).1) (cBuild "a")
      RelativePosition.After "a" "a").1) (by decide)⟩

/-- C6: Add(m, Before) then Add(m2, Before) puts the most recent add
frontmost, yielding [m2, m, ...]; Insert(m2, "m", After) then
Insert(m3, "m", After) puts m3 immediately after m with m2 one position
further, yielding [..., m, m3, m2, ...]. -/
theorem C6_tie_break :
    ∀ (Ctx ρ ε : Type) (s : BuildStep Ctx ρ ε)
      (m m2 m3 : BuildMiddleware Ctx ρ ε),
    (hasID StepEntry.entryID s.ids.order m.ID = false →
     hasID StepEntry.entryID s.ids.order m2.ID = false →
     m2.ID ≠ m.ID →
     ((s.Add m .Before).1.Add m2 .Before).1.ids.GetOrder
       = StepEntry.build m2 :: StepEntry.build m :: s.ids.GetOrder)
    ∧ (∀ pre post : List (StepEntry Ctx ρ ε),
        s.ids.order = pre ++ StepEntry.build m :: post →
        (∀ e ∈ pre, StepEntry.entryID e ≠ m.ID) →
        hasID StepEntry.entryID s.ids.order m2.ID = false →
        hasID StepEntry.entryID s.ids.order m3.ID = false →
        m3.ID ≠ m2.ID →
        ((s.Insert m2 m.ID .After).1.Insert m3 m.ID .After).1.ids.GetOrder
          = pre ++ StepEntry.build m :: StepEntry.build m3
              :: StepEntry.build m2 :: post) := by
  intro Ctx ρ ε s m m2 m3
  constructor
  · intro hm hm2 hne
    have h1 := add_before_order s m hm
    have hbeq : (StepEntry.entryID (StepEntry.build m) == m2.ID) = false :=
      beq_eq_false_iff_ne.mpr fun hEq => hne hEq.symm
    have hm2' : hasID StepEntry.entryID (s.Add m .Before).1.ids.order m2.ID
        = false := by
      rw [h1, hasID_cons, hbeq, hm2]
      rfl
    have h2 := add_before_order (s.Add m .Before).1 m2 hm2'
    show ((s.Add m .Before).1.Add m2 .Before).1.ids.order
      = StepEntry.build m2 :: StepEntry.build m :: s.ids.order
    rw [h2, h1]
  · intro pre post hdecomp hpre hm2 hm3 hne32
    have hins1 : insertRel StepEntry.entryID (StepEntry.build m2) m.ID
        RelativePosition.After s.ids.order
        = some (pre ++ StepEntry.build m :: StepEntry.build m2 :: post) := by
      rw [hdecomp]
      exact insertRel_after_anchor StepEntry.entryID (StepEntry.build m2)
        (StepEntry.build m) pre post hpre
    have h1 := insert_after_order s m2 m.ID _ hm2 hins1
    have hm3' : hasID StepEntry.entryID
        (pre ++ StepEntry.build m :: StepEntry.build m2 :: post) m3.ID
        = false := by
      rw [hdecomp] at hm3
      simp only [hasID_append, hasID_cons, Bool.or_eq_false_iff] at hm3 ⊢
      exact ⟨hm3.1, hm3.2.1,
        beq_eq_false_iff_ne.mpr fun hEq => hne32 hEq.symm, hm3.2.2⟩
    have hm3'' : hasID StepEntry.entryID
        (s.Insert m2 m.ID .After).1.ids.order m3.ID = false := by
      rw [h1]
      exact hm3'
    have hins2 : insertRel StepEntry.entryID (StepEntry.build m3) m.ID
        RelativePosition.After (s.Insert m2 m.ID .After).1.ids.order
        = some (pre ++ StepEntry.build m :: StepEntry.build m3
            :: StepEntry.build m2 :: post) := by
      rw [h1]
      exact insertRel_after_anchor StepEntry.entryID (StepEntry.build m3)
        (StepEntry.build m) pre (StepEntry.build m2 :: post) hpre
    exact insert_after_order (s.Insert m2 m.ID .After).1 m3 m.ID _ hm3''
      hins2

/-- C6 witness: on a fresh step, Add(cBuild "m", Before) then
Add(cBuild "m2", Before) yields [m2, m]; on a step holding only
cBuild "m", Insert(cBuild "m2", "m", After) then
Insert(cBuild "m3", "m", After) yields [m, m3, m2]. -/
theorem C6_tie_break_witness :
    (((@NewBuildStep Unit Nat Unit).Add (cBuild "m")
        .Before).1.Add (cBuild "m2") .Before).1.ids.GetOrder
      = .build (cBuild "m2") :: .build (cBuild "m")
          :: (@NewBuildStep Unit Nat Unit).ids.GetOrder
    ∧ ((((@NewBuildStep Unit Nat Unit).Add
          (cBuild "m") .After).1.Insert (cBuild "m2") "m" .After).1.Insert
            (cBuild "m3") "m" .After).1.ids.GetOrder
      = [] ++ .build (cBuild "m") :: .build (cBuild "m3")
          :: .build (cBuild "m2") :: [] :=
  ⟨(C6_tie_break Unit Nat Unit NewBuildStep (cBuild "m") (cBuild "m2")
      (cBuild "m3")).1 rfl rfl (by decide),
   (C6_tie_break Unit Nat Unit
      ((NewBuildStep.Add (cBuild "m") .After).1) (cBuild "m") (cBuild "m2")
      (cBuild "m3")).2 [] [] rfl
      (fun e he => absurd he (List.not_mem_nil e)) rfl rfl (by decide)⟩

/-- C9: for every sequence of BuildStep operations from a fresh step, the
`.(BuildMiddleware)` assertions never fail: casting the whole order
snapshot succeeds, HandleMiddleware never hits the panic case, and Swap
never hits the panic case on its removed entry. -/
theorem C9_assertions_safe :
    ∀ (Ctx ρ ε : Type) (ops : List (StepOp Ctx ρ ε)),
    (castOrder (NewBuildStep.runOps ops).ids.GetOrder).isSome = true
    ∧ (∀ (ctx : Ctx) (input : Option ρ) (next : Handler Ctx (Option ρ) ε),
        ((NewBuildStep.runOps ops).HandleMiddleware ctx input next).isSome
          = true)
    ∧ (∀ (id : String) (m : BuildMiddleware Ctx ρ ε),
        ((NewBuildStep.runOps ops).Swap id m).2 ≠ SwapResult.castFailure) := by
  intro Ctx ρ ε ops
  have hb : allBuild (NewBuildStep.runOps ops) :=
    (goodStep_runOps NewBuildStep ops goodStep_new).2
  exact ⟨castOrder_isSome _ hb,
    fun ctx input next => handleMiddleware_isSome _ hb ctx input next,
    fun id m => swap_no_castFailure _ hb id m⟩

/-- C9 witness: after `[add (cBuild "a") After]`, casting the order
succeeds, a concrete invocation is not the panic case, and swapping "a"
for cBuild "b" is not the panic case. -/
theorem C9_assertions_safe_witness :
    (castOrder ((@NewBuildStep Unit Nat Unit).runOps
        [StepOp.add (cBuild "a") RelativePosition.After]).ids.GetOrder).isSome
      = true
    ∧ (((@NewBuildStep Unit Nat Unit).runOps
        [StepOp.add (cBuild "a") RelativePosition.After]).HandleMiddleware
          () (some 3) cNext).isSome = true
    ∧ (((@NewBuildStep Unit Nat Unit).runOps
        [StepOp.add (cBuild "a") RelativePosition.After]).Swap "a"
          (cBuild "b")).2 ≠ SwapResult.castFailure :=
  ⟨(C9_assertions_safe Unit Nat Unit
      [StepOp.add (cBuild "a") RelativePosition.After]).1,
   (C9_assertions_safe Unit Nat Unit
      [StepOp.add (cBuild "a") RelativePosition.After]).2.1 () (some 3) cNext,
   (C9_assertions_safe Unit Nat Unit
      [StepOp.add (cBuild "a") RelativePosition.After]).2.2 "a" (cBuild "b")⟩

/-- C10: invoking a Middlewares collection as a single middleware returns
exactly what decorating the next handler with its elements and invoking
the result returns. -/
theorem C10_collection_refines_decorate :
    ∀ (Ctx ι ε : Type) (ms : List (Middleware Ctx ι ε)) (ctx : Ctx)
      (input : ι) (next : Handler Ctx ι ε),
    Middlewares.HandleMiddleware ms ctx input next
      = (DecorateHandler next ms).Handle ctx input :=
  fun _ _ _ _ _ _ _ => rfl

end SmithyGo
